import Mathlib

/-!
Verification development for the calculator engine in `src/calculator.py`
(class `CalcApp`).  The stateful methods of `CalcApp` are embedded as pure
functions over an explicit record `CalcState` holding the same attributes
(`cumulativeInputDisplayString`, `cumulativeOperationDisplayString`,
`cumulativeNumInputList`, `lastCumulativeNumInputList`,
`cumulativeOperationList` and the three boolean flags).  Python strings are
Lean `String`s; Python lists of strings are `List String`.

Python exceptions: a method that can raise an exception which its own body
does not catch is embedded as returning `Except (PyErr × CalcState) CalcState`;
the error value carries the state as already mutated at the point of the
raise, because the Python object keeps those mutations when an exception
escapes the method.

Python numbers (the results of the builtin `eval`, of `float(...)` and of the
arithmetic in `percentage`/`roundToMaxDigits`) are embedded as `PyVal`:
`int` is `Int`, `float` is an exact rational.  This idealizes IEEE-754
doubles as exact decimals; every float appearing in a theorem below has an
exact short decimal value on which the double and the rational agree, and
`str()` of such a float is its exact decimal expansion.
-/

/-- Models Python `str.isnumeric()` on the characters this program handles
(ASCII digits; the calculator never produces non-ASCII numerics). -/
def isNum (c : Char) : Bool := c.isDigit

/-- Insertion of one character at index `j` of a character list, modelling the
Python slice-and-concatenate `s[:j] + ch + s[j:]` used in `parseParentheses`. -/
def insertAt (j : Nat) (c : Char) (s : List Char) : List Char :=
  s.take j ++ c :: s.drop j

/-- Character of `s` at index `q` (blank when out of range; the blank is never
a parenthesis or a numeric character, so it is a neutral default). -/
def nthc (s : List Char) (q : Nat) : Char := s.getD q ' '

/-- The insertion condition of `CalcApp.parseParentheses` at (current, shifted)
position `q`: the source checks `parenthPos > 0`, then that the left-adjacent
character is numeric, then `parenthPos != len - 1`, then that the
right-adjacent character is numeric. -/
def insCondP (s : List Char) (q : Nat) : Prop :=
  0 < q ∧ isNum (nthc s (q - 1)) = true ∧ q ≠ s.length - 1 ∧
    isNum (nthc s (q + 1)) = true

instance (s : List Char) (q : Nat) : Decidable (insCondP s q) := by
  unfold insCondP; infer_instance

/-- One pass of `CalcApp.parseParentheses` over the pre-computed position list
`ps`.  The source walks `parenthPosList` in order and, after each insertion,
adds 1 to every stored position; since the list is strictly increasing and is
walked left to right this is the same as carrying the count `k` of insertions
made so far and probing position `p + k`.  `adj` is `posAdjustment`: 0 for the
`'('` pass (insert before), 1 for the `')'` pass (insert after). -/
def passGo (adj : Nat) : List Nat → List Char → Nat → List Char
  | [], s, _ => s
  | p :: ps, s, k =>
    if insCondP s (p + k)
    then passGo adj ps (insertAt (p + k + adj) '*' s) (k + 1)
    else passGo adj ps s k

/-- Indices (counting from `i`) of the occurrences of `c`, modelling the
comprehension `[pos for pos, char in enumerate(s) if char is parenth]`. -/
def idxsFrom (c : Char) : List Char → Nat → List Nat
  | [], _ => []
  | a :: as, i => if a = c then i :: idxsFrom c as (i + 1) else idxsFrom c as (i + 1)

/-- `CalcApp.parseParentheses` on the underlying character list.  The
source's outer `while outerIndex < 2` loop runs `isLeft = 0` first (so
`parenth = ')'`, insertion after, `posAdjustment = 1`) and `isLeft = 1`
second (`parenth = '('`, insertion before, `posAdjustment = 0`); each pass
recomputes the position list from the current text. -/
def parseParenthesesL (u : List Char) : List Char :=
  passGo 0 (idxsFrom '(' (passGo 1 (idxsFrom ')' u 0) u 0) 0)
    (passGo 1 (idxsFrom ')' u 0) u 0) 0

/-- `CalcApp.parseParentheses`. -/
def parseParentheses (s : String) : String :=
  String.mk (parseParenthesesL s.data)

instance {ε α : Type} [DecidableEq ε] [DecidableEq α] : DecidableEq (Except ε α) := fun a b =>
  match a, b with
  | .error e, .error f =>
    if h : e = f then .isTrue (by rw [h]) else .isFalse (fun hc => by cases hc; exact h rfl)
  | .ok x, .ok y =>
    if h : x = y then .isTrue (by rw [h]) else .isFalse (fun hc => by cases hc; exact h rfl)
  | .error _, .ok _ => .isFalse (fun hc => by cases hc)
  | .ok _, .error _ => .isFalse (fun hc => by cases hc)

/-- Python exception classes that can arise in the embedded code paths. -/
inductive PyErr where
  | syntaxError
  | keyError
  | valueError
  | zeroDivisionError
  | typeError
  | indexError
  | nameError
deriving Repr, DecidableEq

/-- An exact rational, used to idealize Python floats (see the file header).
Kept normalized (positive denominator, lowest terms) by the smart
constructor `PRat.norm`, so structural equality is value equality.  A
separate type is used instead of Mathlib's `Rat` because the latter's
arithmetic is `@[irreducible]` and cannot be evaluated by `decide`. -/
structure PRat where
  num : Int
  den : Nat
deriving Repr, DecidableEq

/-- Normalized rational `n / d` (for `d ≠ 0`; the `d = 0` guard is never hit
by the callers below, which check divisors first). -/
def PRat.norm (n : Int) (d : Nat) : PRat :=
  if d = 0 then ⟨0, 1⟩
  else
    let g := Nat.gcd n.natAbs d
    ⟨n / (g : Int), d / g⟩

def PRat.ofInt (n : Int) : PRat := ⟨n, 1⟩

def PRat.add (a b : PRat) : PRat :=
  PRat.norm (a.num * (b.den : Int) + b.num * (a.den : Int)) (a.den * b.den)

def PRat.sub (a b : PRat) : PRat :=
  PRat.norm (a.num * (b.den : Int) - b.num * (a.den : Int)) (a.den * b.den)

def PRat.mul (a b : PRat) : PRat :=
  PRat.norm (a.num * b.num) (a.den * b.den)

def PRat.neg (a : PRat) : PRat := ⟨-a.num, a.den⟩

/-- Division (callers check for zero divisors first). -/
def PRat.div (a b : PRat) : PRat :=
  let sign : Int := if b.num < 0 then -1 else 1
  PRat.norm (sign * a.num * (b.den : Int)) (a.den * b.num.natAbs)

/-- Floor of a rational, as an integer. -/
def PRat.floorI (a : PRat) : Int := Int.fdiv a.num (a.den : Int)

/-- Truncation toward zero, modelling Python `int(float)`. -/
def PRat.trunc (a : PRat) : Int := Int.tdiv a.num (a.den : Int)

def PRat.le (a b : PRat) : Prop := a.num * (b.den : Int) ≤ b.num * (a.den : Int)

def PRat.lt (a b : PRat) : Prop := a.num * (b.den : Int) < b.num * (a.den : Int)

instance (a b : PRat) : Decidable (PRat.le a b) := by unfold PRat.le; infer_instance

instance (a b : PRat) : Decidable (PRat.lt a b) := by unfold PRat.lt; infer_instance

/-- Power with an integer exponent (nonzero base when the exponent is
negative; callers check). -/
def PRat.zpow (a : PRat) (e : Int) : PRat :=
  if 0 ≤ e then ⟨a.num ^ e.toNat, a.den ^ e.toNat⟩
  else
    let sign : Int := if a.num < 0 then -1 else 1
    PRat.norm (sign * ((a.den : Int) ^ (-e).toNat)) (a.num.natAbs ^ (-e).toNat)

/-- A Python number: `int` or `float`.  Floats are idealized as exact
rationals (see the file header). -/
inductive PyVal where
  | int : Int → PyVal
  | float : PRat → PyVal
deriving Repr, DecidableEq

/-- A Python object as far as this code manipulates them: a number or a
string (`roundToMaxDigits` returns a string when it reformats a float). -/
inductive PyObj where
  | num : PyVal → PyObj
  | str : String → PyObj
deriving Repr, DecidableEq

def PyVal.toF : PyVal → PRat
  | .int n => PRat.ofInt n
  | .float q => q

def pyNeg : PyVal → PyVal
  | .int n => .int (-n)
  | .float q => .float (PRat.neg q)

/-- Python `+` on numbers: `int + int` is `int`, otherwise `float`. -/
def pyAdd (a b : PyVal) : PyVal :=
  match a, b with
  | .int x, .int y => .int (x + y)
  | _, _ => .float (PRat.add a.toF b.toF)

def pySub (a b : PyVal) : PyVal :=
  match a, b with
  | .int x, .int y => .int (x - y)
  | _, _ => .float (PRat.sub a.toF b.toF)

def pyMul (a b : PyVal) : PyVal :=
  match a, b with
  | .int x, .int y => .int (x * y)
  | _, _ => .float (PRat.mul a.toF b.toF)

/-- Python `/` (true division): always a float; raises `ZeroDivisionError`
on a zero divisor. -/
def pyDiv (a b : PyVal) : Except PyErr PyVal :=
  if b.toF.num = 0 then .error .zeroDivisionError
  else .ok (.float (PRat.div a.toF b.toF))

/-- Python `%`: floor modulus (result has the sign of the divisor). -/
def pyMod (a b : PyVal) : Except PyErr PyVal :=
  if b.toF.num = 0 then .error .zeroDivisionError
  else match a, b with
    | .int x, .int y => .ok (.int (Int.fmod x y))
    | _, _ =>
      .ok (.float (PRat.sub a.toF
        (PRat.mul b.toF (PRat.ofInt (PRat.floorI (PRat.div a.toF b.toF))))))

/-- Python `**` on the values this development evaluates: integral exponents.
(A float result of a non-integral exponent is real-valued and outside this
model; no expression in the theorems below has one.) -/
def pyPow (a b : PyVal) : Except PyErr PyVal :=
  match a, b with
  | .int x, .int y =>
    if 0 ≤ y then .ok (.int (x ^ y.toNat))
    else if x = 0 then .error .zeroDivisionError
    else .ok (.float (PRat.zpow (PRat.ofInt x) y))
  | _, _ =>
    if b.toF.den = 1 then
      if a.toF.num = 0 ∧ b.toF.num < 0 then .error .zeroDivisionError
      else .ok (.float (PRat.zpow a.toF b.toF.num))
    else .error .valueError

/-- Numeric value of a list of ASCII digits. -/
def digitsVal (l : List Char) : Nat :=
  l.foldl (fun a c => a * 10 + (c.toNat - 48)) 0

/-- Python arithmetic expressions, the fragment of the AST that the builtin
`eval` can receive from this program's `mathPressed`. -/
inductive PyExpr where
  | lit : PyVal → PyExpr
  | neg : PyExpr → PyExpr
  | pos : PyExpr → PyExpr
  | add : PyExpr → PyExpr → PyExpr
  | sub : PyExpr → PyExpr → PyExpr
  | mul : PyExpr → PyExpr → PyExpr
  | div : PyExpr → PyExpr → PyExpr
  | mod : PyExpr → PyExpr → PyExpr
  | pow : PyExpr → PyExpr → PyExpr
deriving Repr, DecidableEq

/-- Parse a Python numeric literal: digits, optionally followed by a decimal
point and more digits.  An `int` if there is no point, a `float` otherwise. -/
def parseNumLit (cs : List Char) : Option (PyVal × List Char) :=
  let ip := cs.takeWhile Char.isDigit
  if ip = [] then none
  else
    let rest := cs.dropWhile Char.isDigit
    match rest with
    | '.' :: r2 =>
      let fp := r2.takeWhile Char.isDigit
      let rest2 := r2.dropWhile Char.isDigit
      some (.float (PRat.norm ((digitsVal ip : Int) * 10 ^ fp.length + (digitsVal fp : Int))
                      (10 ^ fp.length)),
            rest2)
    | _ => some (.int (digitsVal ip), rest)

mutual

/-- Atom: a numeric literal or a parenthesized expression. -/
def parseAtom : Nat → List Char → Except PyErr (PyExpr × List Char)
  | 0, _ => .error .syntaxError
  | fuel + 1, cs =>
    match cs with
    | '(' :: r =>
      match parseSum fuel r with
      | .error e => .error e
      | .ok (e, r2) =>
        match r2 with
        | ')' :: r3 => .ok (e, r3)
        | _ => .error .syntaxError
    | _ =>
      match parseNumLit cs with
      | some (v, r) => .ok (.lit v, r)
      | none => .error .syntaxError

/-- Unary level (`u_expr` in the Python grammar): optional signs, then a
power. -/
def parseFactor : Nat → List Char → Except PyErr (PyExpr × List Char)
  | 0, _ => .error .syntaxError
  | fuel + 1, cs =>
    match cs with
    | '-' :: r =>
      match parseFactor fuel r with
      | .error e => .error e
      | .ok (e, r2) => .ok (.neg e, r2)
    | '+' :: r =>
      match parseFactor fuel r with
      | .error e => .error e
      | .ok (e, r2) => .ok (.pos e, r2)
    | _ => parsePow fuel cs

/-- Power level: right associative, binding an atom to a unary-level
exponent (`2**3**2` parses as `2**(3**2)`, `2**-1` is legal). -/
def parsePow : Nat → List Char → Except PyErr (PyExpr × List Char)
  | 0, _ => .error .syntaxError
  | fuel + 1, cs =>
    match parseAtom fuel cs with
    | .error e => .error e
    | .ok (b, r) =>
      match r with
      | '*' :: '*' :: r2 =>
        match parseFactor fuel r2 with
        | .error e => .error e
        | .ok (e2, r3) => .ok (.pow b e2, r3)
      | _ => .ok (b, r)

/-- Multiplicative level: factors joined by `*`, `/`, `%`, left associative. -/
def parseTerm : Nat → List Char → Except PyErr (PyExpr × List Char)
  | 0, _ => .error .syntaxError
  | fuel + 1, cs =>
    match parseFactor fuel cs with
    | .error e => .error e
    | .ok (e, r) => parseTermLoop fuel e r

def parseTermLoop : Nat → PyExpr → List Char → Except PyErr (PyExpr × List Char)
  | 0, _, _ => .error .syntaxError
  | fuel + 1, acc, cs =>
    match cs with
    | '*' :: '*' :: _ => .ok (acc, cs)
    | '*' :: r =>
      match parseFactor fuel r with
      | .error e => .error e
      | .ok (e, r2) => parseTermLoop fuel (.mul acc e) r2
    | '/' :: r =>
      match parseFactor fuel r with
      | .error e => .error e
      | .ok (e, r2) => parseTermLoop fuel (.div acc e) r2
    | '%' :: r =>
      match parseFactor fuel r with
      | .error e => .error e
      | .ok (e, r2) => parseTermLoop fuel (.mod acc e) r2
    | _ => .ok (acc, cs)

/-- Additive level: terms joined by `+` or `-`, left associative. -/
def parseSum : Nat → List Char → Except PyErr (PyExpr × List Char)
  | 0, _ => .error .syntaxError
  | fuel + 1, cs =>
    match parseTerm fuel cs with
    | .error e => .error e
    | .ok (e, r) => parseSumLoop fuel e r

def parseSumLoop : Nat → PyExpr → List Char → Except PyErr (PyExpr × List Char)
  | 0, _, _ => .error .syntaxError
  | fuel + 1, acc, cs =>
    match cs with
    | '+' :: r =>
      match parseTerm fuel r with
      | .error e => .error e
      | .ok (e, r2) => parseSumLoop fuel (.add acc e) r2
    | '-' :: r =>
      match parseTerm fuel r with
      | .error e => .error e
      | .ok (e, r2) => parseSumLoop fuel (.sub acc e) r2
    | _ => .ok (acc, cs)

end

/-- Evaluation of a parsed arithmetic expression with Python number
semantics. -/
def evalExpr : PyExpr → Except PyErr PyVal
  | .lit v => .ok v
  | .neg e => do pure (pyNeg (← evalExpr e))
  | .pos e => evalExpr e
  | .add a b => do pure (pyAdd (← evalExpr a) (← evalExpr b))
  | .sub a b => do pure (pySub (← evalExpr a) (← evalExpr b))
  | .mul a b => do pure (pyMul (← evalExpr a) (← evalExpr b))
  | .div a b => do pyDiv (← evalExpr a) (← evalExpr b)
  | .mod a b => do pyMod (← evalExpr a) (← evalExpr b)
  | .pow a b => do pyPow (← evalExpr a) (← evalExpr b)

/-- Models the CPython builtin `eval` on the arithmetic expressions this
program hands it at `calculator.py:497` (`eval(currentCumulativeOperation)`).
The builtin first compiles the whole string (so a malformed tail is a
`SyntaxError` before anything runs), then evaluates.  Note that the builtin's
accepted grammar is wider than the spec's token grammar: it also accepts, for
example, the `%` operator — and, being the general-purpose Python evaluator,
arbitrary Python expressions, which is exactly the hazard the spec flags. -/
def pyEval (s : String) : Except PyErr PyVal :=
  match parseSum (5 * s.length + 10) s.data with
  | .error e => .error e
  | .ok (e, []) => evalExpr e
  | .ok (_, _ :: _) => .error .syntaxError

/-- Decimal digits of the fractional part `rem / den`, by long division.  The
fuel bound 40 covers every terminating expansion in this development (all
denominators divide a power of ten with at most 17 digits). -/
def fracDigitsAux (fuel : Nat) (rem den : Nat) : String :=
  match fuel with
  | 0 => ""
  | f + 1 =>
    if rem = 0 then ""
    else toString (rem * 10 / den) ++ fracDigitsAux f (rem * 10 % den) den

/-- Models Python `str()` on a float, idealized as the exact decimal
expansion (Python prints the shortest decimal that round-trips; for the short
exact decimals arising in this development the two coincide).  A float with
no fractional part prints with a trailing `.0`, as in Python. -/
def pyFloatStr (q : PRat) : String :=
  let sign := if q.num < 0 then "-" else ""
  let n := q.num.natAbs
  let ip := n / q.den
  let rem := n % q.den
  if rem = 0 then sign ++ toString ip ++ ".0"
  else sign ++ toString ip ++ "." ++ fracDigitsAux 40 rem q.den

/-- Models Python `str()` on an int or float. -/
def pyValStr : PyVal → String
  | .int n => toString n
  | .float q => pyFloatStr q

/-- Models Python `str()` on the objects `roundToMaxDigits` can return. -/
def pyObjStr : PyObj → String
  | .num v => pyValStr v
  | .str s => s

/-- Round a rational to the nearest integer, ties to even — the rounding
Python's fixed-point formatting applies. -/
def PRat.roundHalfEven (q : PRat) : Int :=
  let f := q.floorI
  let t := q.num - f * (q.den : Int)
  if 2 * t < (q.den : Int) then f
  else if (q.den : Int) < 2 * t then f + 1
  else if f % 2 = 0 then f else f + 1

def padLeftZeros (s : String) (n : Nat) : String :=
  if n ≤ s.length then s else String.mk (List.replicate (n - s.length) '0') ++ s

/-- Models Python fixed-point formatting with nonnegative
precision `p`, as in the format expression at `calculator.py:650`. -/
def formatFixed (q : PRat) (p : Nat) : String :=
  let scaled := PRat.roundHalfEven (PRat.mul q (PRat.ofInt ((10 : Int) ^ p)))
  let sign := if scaled < 0 then "-" else ""
  let m := scaled.natAbs
  if p = 0 then sign ++ toString (m : Nat)
  else sign ++ toString (m / 10 ^ p) ++ "." ++ padLeftZeros (toString (m % 10 ^ p)) p

/-- `CalcApp.roundToMaxDigits`.  A float with no fractional part becomes an
int; a float whose `str()` exceeds 9 characters is re-rendered with
`9 - len(str(int(x)))` fractional digits — a count that the source does not
clamp, so a negative count reaches Python's formatter and raises
`ValueError`.  Ints pass through unchanged (the source's `TODO`). -/
def roundToMaxDigits (v : PyVal) : Except PyErr PyObj :=
  match v with
  | .int n => .ok (.num (.int n))
  | .float q =>
    if q.den = 1 then .ok (.num (.int q.num))
    else
      let rendered := pyFloatStr q
      if 9 < rendered.length then
        let allowed : Int := 9 - ((toString q.trunc).length : Int)
        if allowed < 0 then .error .valueError
        else .ok (.str (formatFixed q allowed.toNat))
      else .ok (.num (.float q))

/-- Models Python `float(str)`: optional sign, digits, optional decimal
point; anything else raises `ValueError`. -/
def pyFloat (s : String) : Except PyErr PRat :=
  let cs0 := s.data
  let neg := match cs0 with
    | '-' :: _ => true
    | _ => false
  let cs := match cs0 with
    | '-' :: r => r
    | '+' :: r => r
    | r => r
  let ip := cs.takeWhile Char.isDigit
  let rest := cs.dropWhile Char.isDigit
  let sign : Int := if neg then -1 else 1
  match rest with
  | [] =>
    if ip = [] then .error .valueError
    else .ok (PRat.norm (sign * (digitsVal ip : Int)) 1)
  | '.' :: r2 =>
    let fp := r2.takeWhile Char.isDigit
    let rest2 := r2.dropWhile Char.isDigit
    if rest2 ≠ [] then .error .valueError
    else if ip = [] ∧ fp = [] then .error .valueError
    else .ok (PRat.norm (sign * ((digitsVal ip : Int) * 10 ^ fp.length + (digitsVal fp : Int)))
                (10 ^ fp.length))
  | _ => .error .valueError

/-- The core state of a `CalcApp` instance: its display `StringVar`s and the
data attributes set up in `__init__` (`calculator.py:60-69`). -/
structure CalcState where
  inputDisplay : String
  operationDisplay : String
  numInputList : List String
  lastNumInputList : List String
  operationList : List String
  lastInputWasNum : Bool
  lastOperationWasEval : Bool
  skipAddingLastNumInputToOperation : Bool
deriving Repr, DecidableEq

/-- The state right after `__init__`: displays `"0"` and `""`, empty lists,
all flags false. -/
def initState : CalcState :=
  { inputDisplay := "0", operationDisplay := "", numInputList := [],
    lastNumInputList := [], operationList := [], lastInputWasNum := false,
    lastOperationWasEval := false, skipAddingLastNumInputToOperation := false }

/-- Python `''.join(list)`. -/
def joinL (l : List String) : String := String.join l

/-- Python `' '.join(list)`. -/
def joinSpace (l : List String) : String := String.intercalate " " l

/-- Left-to-right non-overlapping replacement on character lists (the
behaviour of Python `str.replace`).  The fuel is the input length, enough
because every step consumes at least one character of `s`. -/
def replaceAux (fuel : Nat) (s pat rep : List Char) : List Char :=
  match fuel, s with
  | 0, rest => rest
  | _, [] => []
  | f + 1, a :: rest =>
    if (a :: rest).take pat.length = pat
    then rep ++ replaceAux f ((a :: rest).drop pat.length) pat rep
    else a :: replaceAux f rest pat rep

/-- Python `s.replace(pat, rep)` for a nonempty pattern. -/
def pyReplace (s pat rep : String) : String :=
  String.mk (replaceAux s.data.length s.data pat.data rep.data)

/-- `CalcApp.numberPressed(value)`: append the pressed value to the number
list, re-render it with `**` shown as `^`, flag the input as numeric. -/
def numberPressed (value : String) (s : CalcState) : CalcState :=
  let nl := s.numInputList ++ [value]
  { s with numInputList := nl,
           inputDisplay := pyReplace (joinL nl) "**" "^",
           lastInputWasNum := true }

/-- `CalcApp.clearAll`: displays to defaults, both lists cleared; the flags
and `lastCumulativeNumInputList` are not touched. -/
def clearAll (s : CalcState) : CalcState :=
  { s with inputDisplay := "0", operationDisplay := "",
           numInputList := [], operationList := [] }

/-- `CalcApp.clearLast` (backspace). -/
def clearLast (s : CalcState) : CalcState :=
  if s.lastOperationWasEval = true ∧ s.lastInputWasNum = false then s
  else if s.lastInputWasNum = true then
    if s.numInputList ≠ [] then
      let nl0 := s.numInputList.dropLast
      let nl := if nl0 = ["-"] then [] else nl0
      { s with numInputList := nl,
               inputDisplay := if nl ≠ [] then joinL nl else "0" }
    else s
  else if s.operationList = [] then s
  else
    let ol := s.operationList.dropLast
    { s with operationList := ol,
             numInputList := s.lastNumInputList,
             skipAddingLastNumInputToOperation := true,
             operationDisplay := joinSpace ol }

/-- `CalcApp.percentage`: if a number input exists, parse it as a float,
divide by 100, and assign the string form of the quotient to element 0 of
the number list (the other elements are untouched).  The `float(...)` call
can raise `ValueError`, which nothing in the method catches. -/
def percentage (s : CalcState) : Except (PyErr × CalcState) CalcState :=
  if s.numInputList = [] then .ok s
  else
    match pyFloat (joinL s.numInputList) with
    | .error e => .error (e, s)
    | .ok q =>
      let pct := PRat.div q (PRat.ofInt 100)
      let nl := s.numInputList.set 0 (pyFloatStr pct)
      .ok { s with numInputList := nl, inputDisplay := joinL nl }

/-- `CalcApp.invert`: if the joined number input is nonempty, prepend `-`
when its first character is numeric, otherwise drop the first character; the
result is re-split into one-character strings (Python `list(str)`). -/
def invert (s : CalcState) : CalcState :=
  let cur := joinL s.numInputList
  if cur = "" then s
  else
    let isPositive := isNum cur.front
    let nl := if isPositive
      then ("-" ++ cur).data.map (fun c => String.singleton c)
      else (cur.data.drop 1).map (fun c => String.singleton c)
    { s with numInputList := nl, inputDisplay := joinL nl }

/-- `CalcApp.exponentiate`: if a number input exists, append the two-character
operator `**` to the number list itself and re-render with `^`. -/
def exponentiate (s : CalcState) : CalcState :=
  if s.numInputList = [] then s
  else
    let nl := s.numInputList ++ ["**"]
    { s with numInputList := nl,
             inputDisplay := pyReplace (joinL nl) "**" "^" }

/-- The fall-through part of `CalcApp.mathPressed` (`calculator.py:465-512`):
commit the current number, then either push the operator or, on `=`,
normalize, evaluate and display.  Only `SyntaxError` and `KeyError` from the
evaluation are caught; any other exception (for example `ZeroDivisionError`)
escapes with the mutations made so far in place. -/
def mathPressedCommit (value : String) (s : CalcState) :
    Except (PyErr × CalcState) CalcState :=
  let cur := joinL s.numInputList
  let s1 := if s.skipAddingLastNumInputToOperation = false
            then { s with operationList := s.operationList ++ [cur] }
            else { s with skipAddingLastNumInputToOperation := false }
  let s2 := { s1 with lastInputWasNum := false }
  if cur = "" then .ok s2
  else if value ≠ "=" then
    let s3 := { s2 with operationList := s2.operationList ++ [value],
                        lastNumInputList := s2.numInputList,
                        numInputList := [],
                        lastOperationWasEval := false }
    .ok { s3 with inputDisplay := "",
                  operationDisplay := joinSpace s3.operationList }
  else
    let expr := parseParentheses (joinL s2.operationList)
    match pyEval expr with
    | .error .syntaxError => .ok { s2 with inputDisplay := "ERROR" }
    | .error .keyError => .ok { s2 with inputDisplay := "ERROR" }
    | .error e => .error (e, s2)
    | .ok res =>
      let s3 := { s2 with lastOperationWasEval := true,
                          operationList := [],
                          numInputList := [pyValStr res] }
      match roundToMaxDigits res with
      | .error e => .error (e, s3)
      | .ok obj =>
        .ok { s3 with inputDisplay := pyObjStr obj,
                      operationDisplay := pyReplace expr "**" "^" }

/-- `CalcApp.mathPressed(value)`.  The first branch (`calculator.py:446-463`)
handles an operator press directly after another committed operator
— but only when the joined number input is non-empty; it reads
`cumulativeOperationList[-1]`, which raises `IndexError` on an empty list. -/
def mathPressed (value : String) (s : CalcState) :
    Except (PyErr × CalcState) CalcState :=
  if s.lastInputWasNum = false ∧ s.lastOperationWasEval = false ∧
      joinL s.numInputList ≠ "" then
    match s.operationList.getLast? with
    | none => .error (.indexError, s)
    | some last =>
      if last = value then .ok s
      else
        let s1 := clearLast s
        let s2 := { s1 with skipAddingLastNumInputToOperation := false }
        let s3 := { s2 with operationList := s2.operationList ++ [value],
                            numInputList := [] }
        .ok { s3 with inputDisplay := "",
                      operationDisplay := joinSpace s3.operationList }
  else
    mathPressedCommit value s

/-- `CalcApp.square`: if a number input exists, append `'*' + current` to the
number list and force evaluation through `mathPressed('=')`. -/
def square (s : CalcState) : Except (PyErr × CalcState) CalcState :=
  if s.numInputList = [] then .ok s
  else
    let cur := joinL s.numInputList
    mathPressed "=" { s with numInputList := s.numInputList ++ ["*" ++ cur] }

/-- `CalcApp.logarithms(base)`: if a number input exists, parse it as a
float, apply `math.log10` (when `base == 10`) or `math.log`, round via
`roundToMaxDigits`, write the string result into element 0 of the number
list and into the display.  `ValueError` (unparsable input, non-positive
argument, or negative formatting precision) is caught and shows `ERROR`.
The two libm functions are external to the repository and are passed in as
`log10Fn` / `lnFn` (total on positive arguments). -/
def logarithms (base : Option Nat) (log10Fn lnFn : PRat → PRat) (s : CalcState) :
    CalcState :=
  if s.numInputList = [] then s
  else
    match pyFloat (joinL s.numInputList) with
    | .error _ => { s with inputDisplay := "ERROR" }
    | .ok q =>
      if PRat.le q (PRat.ofInt 0) then { s with inputDisplay := "ERROR" }
      else
        let logFn := if base = some 10 then log10Fn else lnFn
        match roundToMaxDigits (.float (logFn q)) with
        | .error _ => { s with inputDisplay := "ERROR" }
        | .ok obj =>
          let r := pyObjStr obj
          { s with numInputList := s.numInputList.set 0 r,
                   inputDisplay := r }

/-- The frontier of a pass: the current probe position, or the text length
once the position list is exhausted. -/
def frontOf (ps : List Nat) (k : Nat) (len : Nat) : Nat :=
  match ps with
  | [] => len
  | p :: _ => p + k

/-- All occurrences of `c` in `s` fail the insertion condition. -/
def allSafe (c : Char) (s : List Char) : Prop :=
  ∀ q, nthc s q = c → ¬ insCondP s q

/-- The IEEE-754 double returned by CPython `math.log10(9.0)` — an external
libm call, not repository code — whose shortest round-trip repr is
`0.9542425094393249`, idealized here as that exact decimal. -/
def log10of9 : PRat := PRat.norm 9542425094393249 (10 ^ 16)

theorem nthc_default {s : List Char} {q : Nat} (h : s.length ≤ q) : nthc s q = ' ' := by
  simp only [nthc, List.getD]
  rw [List.get?_eq_none.mpr h]
  rfl

theorem lt_length_of_nthc {s : List Char} {q : Nat} {c : Char} (hc : c ≠ ' ')
    (h : nthc s q = c) : q < s.length := by
  by_contra hq
  push_neg at hq
  rw [nthc_default hq] at h
  exact hc h.symm

theorem insertAt_zero (c : Char) (s : List Char) : insertAt 0 c s = c :: s := by
  simp [insertAt]

theorem insertAt_cons (j : Nat) (c a : Char) (s : List Char) :
    insertAt (j + 1) c (a :: s) = a :: insertAt j c s := by
  simp [insertAt]

theorem length_insertAt {j : Nat} {s : List Char} (h : j ≤ s.length) (c : Char) :
    (insertAt j c s).length = s.length + 1 := by
  simp [insertAt]
  omega

theorem nthc_cons_succ (a : Char) (s : List Char) (q : Nat) :
    nthc (a :: s) (q + 1) = nthc s q := by
  simp [nthc]

theorem nthc_cons_zero (a : Char) (s : List Char) : nthc (a :: s) 0 = a := by
  simp [nthc]

theorem nthc_insertAt_lt {j q : Nat} {s : List Char} (c : Char) (hj : j ≤ s.length)
    (h : q < j) : nthc (insertAt j c s) q = nthc s q := by
  induction j generalizing s q with
  | zero => omega
  | succ j ih =>
    cases s with
    | nil => simp at hj
    | cons a s' =>
      rw [insertAt_cons]
      cases q with
      | zero => simp [nthc]
      | succ q' =>
        rw [nthc_cons_succ, nthc_cons_succ]
        exact ih (by simpa using hj) (by omega)

theorem nthc_insertAt_self {j : Nat} {s : List Char} (c : Char) (hj : j ≤ s.length) :
    nthc (insertAt j c s) j = c := by
  induction j generalizing s with
  | zero => rw [insertAt_zero]; simp [nthc]
  | succ j ih =>
    cases s with
    | nil => simp at hj
    | cons a s' =>
      rw [insertAt_cons, nthc_cons_succ]
      exact ih (by simpa using hj)

theorem nthc_insertAt_gt {j q : Nat} {s : List Char} (c : Char) (hj : j ≤ s.length)
    (h : j < q) : nthc (insertAt j c s) q = nthc s (q - 1) := by
  induction j generalizing s q with
  | zero =>
    rw [insertAt_zero]
    cases q with
    | zero => omega
    | succ q' => rw [nthc_cons_succ]; simp
  | succ j ih =>
    cases s with
    | nil => simp at hj
    | cons a s' =>
      rw [insertAt_cons]
      cases q with
      | zero => omega
      | succ q' =>
        rw [nthc_cons_succ, ih (by simpa using hj) (by omega)]
        cases q' with
        | zero => omega
        | succ q'' =>
          have e1 : q'' + 1 - 1 = q'' := rfl
          have e2 : q'' + 1 + 1 - 1 = q'' + 1 := rfl
          rw [e1, e2, nthc_cons_succ]

theorem insCond_bound {s : List Char} {q : Nat} (h : insCondP s q) : q + 1 < s.length := by
  obtain ⟨_, _, _, hr⟩ := h
  by_contra hq
  push_neg at hq
  rw [nthc_default hq] at hr
  exact absurd hr (by decide)

theorem safe_insert_lt {j q : Nat} {s : List Char} (hj : j ≤ s.length) (hq : q < j)
    (hs : ¬ insCondP s q) : ¬ insCondP (insertAt j '*' s) q := by
  intro h
  obtain ⟨h0, hl, hlen, hr⟩ := h
  by_cases hqj : q + 1 = j
  · rw [hqj, nthc_insertAt_self '*' hj] at hr
    exact absurd hr (by decide)
  · have hq1 : q + 1 < j := by omega
    apply hs
    refine ⟨h0, ?_, by omega, ?_⟩
    · rw [← nthc_insertAt_lt '*' hj (show q - 1 < j by omega)]
      exact hl
    · rw [← nthc_insertAt_lt '*' hj hq1]
      exact hr

theorem safe_insert_gt {j q : Nat} {s : List Char} (hj : j ≤ s.length) (hq : j < q)
    (hs : ¬ insCondP s (q - 1)) : ¬ insCondP (insertAt j '*' s) q := by
  intro h
  obtain ⟨h0, hl, hlen, hr⟩ := h
  have hlen' : (insertAt j '*' s).length = s.length + 1 := length_insertAt hj '*'
  by_cases hqj : q - 1 = j
  · rw [show q - 1 = j from hqj, nthc_insertAt_self '*' hj] at hl
    exact absurd hl (by decide)
  · have hq1 : j < q - 1 := by omega
    apply hs
    refine ⟨by omega, ?_, ?_, ?_⟩
    · rw [nthc_insertAt_gt '*' hj hq1] at hl
      exact hl
    · intro hcon
      apply hlen
      rw [hlen']
      omega
    · rw [nthc_insertAt_gt '*' hj (show j < q + 1 by omega)] at hr
      rw [show q + 1 - 1 = q - 1 + 1 by omega] at hr
      exact hr

theorem star_kills_right {q : Nat} {s : List Char} (hj : q + 1 ≤ s.length) :
    ¬ insCondP (insertAt (q + 1) '*' s) q := by
  intro h
  obtain ⟨_, _, _, hr⟩ := h
  rw [nthc_insertAt_self '*' hj] at hr
  exact absurd hr (by decide)

theorem star_kills_left {j : Nat} {s : List Char} (hj : j ≤ s.length) :
    ¬ insCondP (insertAt j '*' s) (j + 1) := by
  intro h
  obtain ⟨_, hl, _, _⟩ := h
  rw [show j + 1 - 1 = j from rfl, nthc_insertAt_self '*' hj] at hl
  exact absurd hl (by decide)

theorem idxsFrom_ge {c : Char} :
    ∀ (s : List Char) (i p : Nat), p ∈ idxsFrom c s i → i ≤ p := by
  intro s
  induction s with
  | nil => intro i p h; simp [idxsFrom] at h
  | cons a as ih =>
    intro i p h
    by_cases hac : a = c
    · simp only [idxsFrom, if_pos hac, List.mem_cons] at h
      rcases h with h1 | h1
      · omega
      · have := ih (i + 1) p h1; omega
    · simp only [idxsFrom, if_neg hac] at h
      have := ih (i + 1) p h; omega

theorem mem_idxsFrom {c : Char} :
    ∀ (s : List Char) (i p : Nat),
      p ∈ idxsFrom c s i ↔ i ≤ p ∧ p - i < s.length ∧ nthc s (p - i) = c := by
  intro s
  induction s with
  | nil => intro i p; simp [idxsFrom, nthc]
  | cons a as ih =>
    intro i p
    constructor
    · intro h
      by_cases hac : a = c
      · simp only [idxsFrom, if_pos hac, List.mem_cons] at h
        rcases h with h1 | h1
        · subst h1
          exact ⟨le_refl _, by simp, by simp [nthc, hac]⟩
        · have hge := idxsFrom_ge as (i + 1) p h1
          obtain ⟨_, h2, h3⟩ := (ih (i + 1) p).mp h1
          refine ⟨by omega, by simp; omega, ?_⟩
          rw [show p - i = (p - (i + 1)) + 1 by omega, nthc_cons_succ]
          exact h3
      · simp only [idxsFrom, if_neg hac] at h
        have hge := idxsFrom_ge as (i + 1) p h
        obtain ⟨_, h2, h3⟩ := (ih (i + 1) p).mp h
        refine ⟨by omega, by simp; omega, ?_⟩
        rw [show p - i = (p - (i + 1)) + 1 by omega, nthc_cons_succ]
        exact h3
    · rintro ⟨h1, h2, h3⟩
      by_cases hpi : p = i
      · subst hpi
        rw [show p - p = 0 from by omega, nthc_cons_zero] at h3
        simp only [idxsFrom, if_pos h3]
        exact List.mem_cons_self _ _
      · have hgt : i + 1 ≤ p := by omega
        rw [show p - i = (p - (i + 1)) + 1 by omega, nthc_cons_succ] at h3
        have h2' : p - (i + 1) < as.length := by
          simp only [List.length_cons] at h2; omega
        have hmem := (ih (i + 1) p).mpr ⟨hgt, h2', h3⟩
        by_cases hac : a = c
        · simp only [idxsFrom, if_pos hac]
          exact List.mem_cons_of_mem _ hmem
        · simp only [idxsFrom, if_neg hac]
          exact hmem

theorem idxsFrom_sorted {c : Char} :
    ∀ (s : List Char) (i : Nat), List.Sorted (· < ·) (idxsFrom c s i) := by
  intro s
  induction s with
  | nil => intro i; simp [idxsFrom]
  | cons a as ih =>
    intro i
    by_cases hac : a = c
    · simp only [idxsFrom, if_pos hac]
      rw [List.sorted_cons]
      exact ⟨fun b hb => by have := idxsFrom_ge as (i + 1) b hb; omega, ih (i + 1)⟩
    · simp only [idxsFrom, if_neg hac]
      exact ih (i + 1)

theorem allSafe_insert {c : Char} {j : Nat} {s : List Char} (hc : c ≠ '*')
    (hj : j ≤ s.length) (h : allSafe c s) : allSafe c (insertAt j '*' s) := by
  intro q hq
  rcases lt_trichotomy q j with h1 | h1 | h1
  · rw [nthc_insertAt_lt '*' hj h1] at hq
    exact safe_insert_lt hj h1 (h q hq)
  · subst h1
    rw [nthc_insertAt_self '*' hj] at hq
    exact absurd hq.symm hc
  · rw [nthc_insertAt_gt '*' hj h1] at hq
    exact safe_insert_gt hj h1 (h (q - 1) hq)

theorem passGo_allSafe {c : Char} (hc : c ≠ '*') (adj : Nat) (hadj : adj ≤ 1) :
    ∀ (ps : List Nat) (s : List Char) (k : Nat),
      allSafe c s → allSafe c (passGo adj ps s k) := by
  intro ps
  induction ps with
  | nil => intro s k h; simpa [passGo] using h
  | cons p ps ih =>
    intro s k h
    by_cases hcond : insCondP s (p + k)
    · rw [passGo, if_pos hcond]
      have hb := insCond_bound hcond
      exact ih _ _ (allSafe_insert hc (by omega) h)
    · rw [passGo, if_neg hcond]
      exact ih _ _ h

theorem passGo_id {adj : Nat} :
    ∀ (ps : List Nat) (s : List Char) (k : Nat),
      (∀ p ∈ ps, ¬ insCondP s (p + k)) → passGo adj ps s k = s := by
  intro ps
  induction ps with
  | nil => intro s k _; rfl
  | cons p ps ih =>
    intro s k h
    rw [passGo, if_neg (h p (List.mem_cons_self _ _))]
    exact ih s k (fun p2 hp2 => h p2 (List.mem_cons_of_mem _ hp2))

theorem passGo_safe {c : Char} (hc : c ≠ '*') (hcd : c ≠ ' ') {adj : Nat} (hadj : adj ≤ 1) :
    ∀ (ps : List Nat) (s : List Char) (k : Nat),
      List.Sorted (· < ·) ps →
      (∀ p ∈ ps, p + k < s.length ∧ nthc s (p + k) = c) →
      (∀ q, q < frontOf ps k s.length → nthc s q = c → ¬ insCondP s q) →
      (∀ q, frontOf ps k s.length ≤ q → nthc s q = c → ∃ p ∈ ps, q = p + k) →
      allSafe c (passGo adj ps s k) := by
  intro ps
  induction ps with
  | nil =>
    intro s k _ _ h3 _
    intro q hq
    rw [passGo] at hq
    rw [passGo]
    by_cases hlt : q < s.length
    · exact h3 q (by simpa [frontOf] using hlt) hq
    · exfalso
      push_neg at hlt
      rw [nthc_default hlt] at hq
      exact hcd hq.symm
  | cons p ps ih =>
    intro s k hsort h2 h3 h4
    obtain ⟨hb, hpc⟩ := h2 p (List.mem_cons_self _ _)
    have hsort' := (List.sorted_cons.mp hsort).2
    have hhead := (List.sorted_cons.mp hsort).1
    by_cases hcond : insCondP s (p + k)
    · rw [passGo, if_pos hcond]
      have hjle : p + k + adj ≤ s.length := by
        have := insCond_bound hcond
        omega
      have hlt : (insertAt (p + k + adj) '*' s).length = s.length + 1 :=
        length_insertAt hjle '*'
      apply ih (insertAt (p + k + adj) '*' s) (k + 1) hsort'
      · -- positions in the tail still carry `c`, one slot to the right
        intro p2 hp2
        have hpp : p < p2 := hhead p2 hp2
        obtain ⟨hb2, hc2⟩ := h2 p2 (List.mem_cons_of_mem _ hp2)
        refine ⟨by omega, ?_⟩
        rw [nthc_insertAt_gt '*' hjle (by omega)]
        rw [show p2 + (k + 1) - 1 = p2 + k by omega]
        exact hc2
      · -- everything below the new frontier is safe
        intro q hqf hqc
        rcases lt_trichotomy q (p + k + adj) with hqj | hqj | hqj
        · rw [nthc_insertAt_lt '*' hjle hqj] at hqc
          rcases lt_trichotomy q (p + k) with hq2 | hq2 | hq2
          · exact safe_insert_lt hjle hqj (h3 q (by simpa [frontOf] using hq2) hqc)
          · have hadj1 : adj = 1 := by omega
            subst hadj1
            subst hq2
            exact star_kills_right (by omega)
          · omega
        · exfalso
          rw [hqj, nthc_insertAt_self '*' hjle] at hqc
          exact hc hqc.symm
        · rw [nthc_insertAt_gt '*' hjle hqj] at hqc
          by_cases hq2 : q - 1 = p + k
          · have hadj0 : adj = 0 := by omega
            subst hadj0
            rw [show q = p + k + 0 + 1 by omega]
            exact star_kills_left hjle
          · have hq3 : p + k < q - 1 := by omega
            obtain ⟨p2, hp2mem, hp2eq⟩ := h4 (q - 1) (by simp [frontOf]; omega) hqc
            rcases List.mem_cons.mp hp2mem with h5 | h5
            · omega
            · exfalso
              cases ps with
              | nil => simp at h5
              | cons p3 ps3 =>
                have hle : p3 ≤ p2 := by
                  rcases List.mem_cons.mp h5 with h6 | h6
                  · omega
                  · have := (List.sorted_cons.mp hsort').1 p2 h6
                    omega
                simp only [frontOf] at hqf
                omega
      · -- everything at or beyond the new frontier is a shifted tail position
        intro q hqf hqc
        rcases lt_trichotomy q (p + k + adj) with hqj | hqj | hqj
        · exfalso
          cases ps with
          | nil =>
            simp only [frontOf, hlt] at hqf
            omega
          | cons p3 ps3 =>
            have hpp3 : p < p3 := hhead p3 (List.mem_cons_self _ _)
            simp only [frontOf] at hqf
            omega
        · exfalso
          rw [hqj, nthc_insertAt_self '*' hjle] at hqc
          exact hc hqc.symm
        · rw [nthc_insertAt_gt '*' hjle hqj] at hqc
          by_cases hq2 : q - 1 = p + k
          · exfalso
            cases ps with
            | nil =>
              simp only [frontOf, hlt] at hqf
              omega
            | cons p3 ps3 =>
              have hpp3 : p < p3 := hhead p3 (List.mem_cons_self _ _)
              simp only [frontOf] at hqf
              omega
          · have hq3 : p + k < q - 1 := by omega
            obtain ⟨p2, hp2mem, hp2eq⟩ := h4 (q - 1) (by simp [frontOf]; omega) hqc
            rcases List.mem_cons.mp hp2mem with h5 | h5
            · omega
            · exact ⟨p2, h5, by omega⟩
    · rw [passGo, if_neg hcond]
      apply ih s k hsort'
      · intro p2 hp2
        exact h2 p2 (List.mem_cons_of_mem _ hp2)
      · intro q hqf hqc
        rcases lt_trichotomy q (p + k) with hq2 | hq2 | hq2
        · exact h3 q (by simpa [frontOf] using hq2) hqc
        · rw [hq2]
          exact hcond
        · obtain ⟨p2, hp2mem, hp2eq⟩ := h4 q (by simp [frontOf]; omega) hqc
          rcases List.mem_cons.mp hp2mem with h5 | h5
          · omega
          · exfalso
            cases ps with
            | nil => simp at h5
            | cons p3 ps3 =>
              have hle : p3 ≤ p2 := by
                rcases List.mem_cons.mp h5 with h6 | h6
                · omega
                · have := (List.sorted_cons.mp hsort').1 p2 h6
                  omega
              simp only [frontOf] at hqf
              omega
      · intro q hqf hqc
        have hfr : p + k < frontOf ps k s.length := by
          cases ps with
          | nil => simp only [frontOf]; omega
          | cons p3 ps3 =>
            have := hhead p3 (List.mem_cons_self _ _)
            simp only [frontOf]
            omega
        obtain ⟨p2, hp2mem, hp2eq⟩ := h4 q (by simp [frontOf]; omega) hqc
        rcases List.mem_cons.mp hp2mem with h5 | h5
        · omega
        · exact ⟨p2, h5, hp2eq⟩

theorem passGo_safe_full {c : Char} (hc : c ≠ '*') (hcd : c ≠ ' ') {adj : Nat}
    (hadj : adj ≤ 1) (u : List Char) :
    allSafe c (passGo adj (idxsFrom c u 0) u 0) := by
  apply passGo_safe hc hcd hadj
  · exact idxsFrom_sorted u 0
  · intro p hp
    obtain ⟨_, h2, h3⟩ := (mem_idxsFrom u 0 p).mp hp
    constructor
    · simpa using h2
    · simpa using h3
  · intro q hqf hqc
    exfalso
    have hqlen : q < u.length := lt_length_of_nthc hcd hqc
    have hmem : q ∈ idxsFrom c u 0 :=
      (mem_idxsFrom u 0 q).mpr ⟨by omega, by simpa, by simpa⟩
    cases hidx : idxsFrom c u 0 with
    | nil =>
      rw [hidx] at hmem
      simp at hmem
    | cons p0 ps0 =>
      rw [hidx] at hmem hqf
      simp only [frontOf] at hqf
      rcases List.mem_cons.mp hmem with h1 | h1
      · omega
      · have hs := idxsFrom_sorted (c := c) u 0
        rw [hidx] at hs
        have := (List.sorted_cons.mp hs).1 q h1
        omega
  · intro q hqf hqc
    have hqlen : q < u.length := lt_length_of_nthc hcd hqc
    have hmem : q ∈ idxsFrom c u 0 :=
      (mem_idxsFrom u 0 q).mpr ⟨by omega, by simpa, by simpa⟩
    exact ⟨q, hmem, by omega⟩

theorem parseParenthesesL_idem (u : List Char) :
    parseParenthesesL (parseParenthesesL u) = parseParenthesesL u := by
  have hsafe1 : allSafe ')' (passGo 1 (idxsFrom ')' u 0) u 0) :=
    passGo_safe_full (by decide) (by decide) (by decide) u
  have hsafe2 : allSafe '(' (parseParenthesesL u) :=
    passGo_safe_full (by decide) (by decide) (by decide) _
  have hsafe3 : allSafe ')' (parseParenthesesL u) :=
    passGo_allSafe (by decide) 0 (by decide) _ _ 0 hsafe1
  have hid1 : passGo 1 (idxsFrom ')' (parseParenthesesL u) 0) (parseParenthesesL u) 0
      = parseParenthesesL u := by
    apply passGo_id
    intro p hp
    obtain ⟨_, h2, h3⟩ := (mem_idxsFrom _ 0 p).mp hp
    have hn : nthc (parseParenthesesL u) p = ')' := by simpa using h3
    simpa using hsafe3 p hn
  have hid2 : passGo 0 (idxsFrom '(' (parseParenthesesL u) 0) (parseParenthesesL u) 0
      = parseParenthesesL u := by
    apply passGo_id
    intro p hp
    obtain ⟨_, h2, h3⟩ := (mem_idxsFrom _ 0 p).mp hp
    have hn : nthc (parseParenthesesL u) p = '(' := by simpa using h3
    simpa using hsafe2 p hn
  calc parseParenthesesL (parseParenthesesL u)
      = passGo 0 (idxsFrom '(' (parseParenthesesL u) 0) (parseParenthesesL u) 0 := by
        rw [parseParenthesesL, hid1]
    _ = parseParenthesesL u := hid2

theorem parseParenthesesL_id_of_safe {u : List Char} (h1 : allSafe ')' u)
    (h2 : allSafe '(' u) : parseParenthesesL u = u := by
  have hid1 : passGo 1 (idxsFrom ')' u 0) u 0 = u := by
    apply passGo_id
    intro p hp
    obtain ⟨_, _, h3⟩ := (mem_idxsFrom _ 0 p).mp hp
    have hn : nthc u p = ')' := by simpa using h3
    simpa using h1 p hn
  have hid2 : passGo 0 (idxsFrom '(' u 0) u 0 = u := by
    apply passGo_id
    intro p hp
    obtain ⟨_, _, h3⟩ := (mem_idxsFrom _ 0 p).mp hp
    have hn : nthc u p = '(' := by simpa using h3
    simpa using h2 p hn
  rw [parseParenthesesL, hid1, hid2]

/-- Claim C1: the claim says the evaluation step rejects any input with a
character outside the spec's token grammar; but the evaluation step is the
builtin `eval` (`calculator.py:497`), which on `"5%2"` — whose `%` is outside
that grammar — computes the result `1` instead of rejecting. -/
theorem C1_eval_computes_outside_grammar : pyEval "5%2" = .ok (.int 1) := by decide

/-- Claim C2: pressing `5`, `/`, `0`, `=`.  The operand `"0"` is appended to
the operation list before evaluation, and the `ZeroDivisionError` raised by
the evaluation is not among the caught exceptions, so it escapes
`mathPressed` with the input display still `"0"` (never set to the error
sentinel) and the operation list changed to `["5", "/", "0"]`. -/
theorem C2_division_by_zero_escapes :
    numberPressed "5" initState = ⟨"5", "", ["5"], [], [], true, false, false⟩ ∧
    mathPressed "/" ⟨"5", "", ["5"], [], [], true, false, false⟩
      = .ok ⟨"", "5 /", [], ["5"], ["5", "/"], false, false, false⟩ ∧
    numberPressed "0" ⟨"", "5 /", [], ["5"], ["5", "/"], false, false, false⟩
      = ⟨"0", "5 /", ["0"], ["5"], ["5", "/"], true, false, false⟩ ∧
    mathPressed "=" ⟨"0", "5 /", ["0"], ["5"], ["5", "/"], true, false, false⟩
      = .error (.zeroDivisionError,
          ⟨"0", "5 /", ["0"], ["5"], ["5", "/", "0"], false, false, false⟩) :=
  ⟨by decide, by decide, by decide, by decide⟩

/-- Claim C3: pressing `5`, `+`, then `+` again (or any other operator).
Because the operator commit cleared `cumulativeNumInputList`, the
duplicate-rejection branch's guard `''.join(...)` is empty and the branch is
skipped; instead the empty string is appended to the operation list, which
ends `["5", "+", ""]` — neither a rejection nor a replacement. -/
theorem C3_duplicate_operator_not_rejected :
    mathPressed "+" (numberPressed "5" initState)
      = .ok ⟨"", "5 +", [], ["5"], ["5", "+"], false, false, false⟩ ∧
    mathPressed "+" ⟨"", "5 +", [], ["5"], ["5", "+"], false, false, false⟩
      = .ok ⟨"", "5 +", [], ["5"], ["5", "+", ""], false, false, false⟩ ∧
    mathPressed "*" ⟨"", "5 +", [], ["5"], ["5", "+"], false, false, false⟩
      = .ok ⟨"", "5 +", [], ["5"], ["5", "+", ""], false, false, false⟩ :=
  ⟨by decide, by decide, by decide⟩

/-- Claim C4 counterexample: the normalizer leaves `"(3)(4)"` unchanged — it
does not produce `"(3)*(4)"`, because each parenthesis must have numeric
characters on both sides before a `*` is inserted. -/
theorem C4_counterexample :
    parseParentheses "(3)(4)" = "(3)(4)" ∧ "(3)(4)" ≠ "(3)*(4)" :=
  ⟨by decide, by decide⟩

/-- Claim C4, amended: a multiplication operator is inserted only at a
parenthesis flanked by numeric characters on both sides (before such a `(`,
after such a `)`); `"2(3)"` normalizes to `"2*(3)"` which evaluates to 6,
`"2(3)2"` to `"2*(3)*2"`, while `"(3)(4)"` and `"2((3))"` are unchanged, and
in general a text with no both-sides-numeric parenthesis is unchanged. -/
theorem C4_amended :
    parseParentheses "2(3)" = "2*(3)" ∧ pyEval "2*(3)" = .ok (.int 6) ∧
    parseParentheses "2(3)2" = "2*(3)*2" ∧
    parseParentheses "(3)(4)" = "(3)(4)" ∧
    parseParentheses "2((3))" = "2((3))" ∧
    ∀ u : List Char,
      (∀ q, (nthc u q = '(' ∨ nthc u q = ')') → ¬ insCondP u q) →
      parseParenthesesL u = u := by
  refine ⟨by decide, by decide, by decide, by decide, by decide, ?_⟩
  intro u h
  exact parseParenthesesL_id_of_safe (fun q hq => h q (Or.inr hq)) (fun q hq => h q (Or.inl hq))

/-- Claim C5: the normalizer is idempotent — running `parseParentheses` on
its own output changes nothing, because every inserted `*` breaks the
numeric adjacency that triggers insertion. -/
theorem C5_normalizer_idempotent (x : String) :
    parseParentheses (parseParentheses x) = parseParentheses x := by
  show String.mk (parseParenthesesL (String.mk (parseParenthesesL x.data)).data)
      = String.mk (parseParenthesesL x.data)
  rw [show (String.mk (parseParenthesesL x.data)).data = parseParenthesesL x.data from rfl,
    parseParenthesesL_idem]

/-- Claim C6 counterexample: on the fresh state, an operator press is not
ignored — it appends an empty-string token to the operation list. -/
theorem C6_counterexample :
    mathPressed "+" initState = .ok ⟨"0", "", [], [], [""], false, false, false⟩ ∧
    ([""] : List String) ≠ [] :=
  ⟨by decide, by decide⟩

/-- Claim C6, amended: with an empty number input, no committed content and
the skip flag clear, an operator press produces no user-visible change (both
displays keep their values and the press raises nothing), but it does append
one empty-string fragment to the OperationBuffer — invisible in the joined
expression — and (re)sets `lastInputWasNum` to false; nothing else changes. -/
theorem joinL_nil : joinL [] = "" := rfl

theorem C6_amended (v : String) (s : CalcState) (h1 : s.numInputList = [])
    (h2 : s.operationList = []) (h3 : s.skipAddingLastNumInputToOperation = false) :
    mathPressed v s
      = .ok { s with operationList := [""], lastInputWasNum := false } := by
  simp [mathPressed, mathPressedCommit, h1, h2, h3, joinL_nil]

theorem C6_amended_witness :
    mathPressed "+" initState
      = .ok { initState with operationList := [""], lastInputWasNum := false } :=
  C6_amended "+" initState rfl rfl rfl

/-- Claim C7 counterexample: pressing `1`, `2`, `+`, `8`, `=` ends with the
input display `"20"` but the operation display `"12+8"` — the `=` handler
joins the committed tokens with no separator — not `"12 + 8"`. -/
theorem C7_counterexample :
    numberPressed "2" (numberPressed "1" initState)
      = ⟨"12", "", ["1", "2"], [], [], true, false, false⟩ ∧
    mathPressed "+" ⟨"12", "", ["1", "2"], [], [], true, false, false⟩
      = .ok ⟨"", "12 +", [], ["1", "2"], ["12", "+"], false, false, false⟩ ∧
    numberPressed "8" ⟨"", "12 +", [], ["1", "2"], ["12", "+"], false, false, false⟩
      = ⟨"8", "12 +", ["8"], ["1", "2"], ["12", "+"], true, false, false⟩ ∧
    mathPressed "=" ⟨"8", "12 +", ["8"], ["1", "2"], ["12", "+"], true, false, false⟩
      = .ok ⟨"20", "12+8", ["20"], ["1", "2"], [], false, true, false⟩ ∧
    "12+8" ≠ "12 + 8" :=
  ⟨by decide, by decide, by decide, by decide, by decide⟩

/-- Claim C7, amended: on a successful `=` evaluation the OperationBuffer is
cleared, CurrentNumberInput becomes the single string form of the raw
result, the input display shows the formatted result and the operation
display shows the normalized expression (tokens joined without separators,
`**` rendered as `^`); in particular `12`, `+`, `8`, `=` gives input display
`"20"` and operation display `"12+8"`. -/
theorem C7_amended (s : CalcState) (res : PyVal) (obj : PyObj)
    (h1 : s.lastInputWasNum = true)
    (h2 : s.skipAddingLastNumInputToOperation = false)
    (h3 : joinL s.numInputList ≠ "")
    (h4 : pyEval (parseParentheses (joinL (s.operationList ++ [joinL s.numInputList])))
            = .ok res)
    (h5 : roundToMaxDigits res = .ok obj) :
    mathPressed "=" s
      = .ok { s with
          inputDisplay := pyObjStr obj,
          operationDisplay :=
            pyReplace (parseParentheses (joinL (s.operationList ++ [joinL s.numInputList])))
              "**" "^",
          numInputList := [pyValStr res],
          operationList := [],
          lastInputWasNum := false,
          lastOperationWasEval := true } := by
  simp [mathPressed, mathPressedCommit, h1, h2, h3, h4, h5]

theorem C7_amended_witness :
    mathPressed "=" ⟨"8", "12 +", ["8"], ["1", "2"], ["12", "+"], true, false, false⟩
      = .ok ⟨"20", "12+8", ["20"], ["1", "2"], [], false, true, false⟩ := by
  have h := C7_amended ⟨"8", "12 +", ["8"], ["1", "2"], ["12", "+"], true, false, false⟩
    (.int 20) (.num (.int 20)) rfl rfl (by decide) (by decide) (by decide)
  exact h.trans (by decide)

/-- Claim C8: typing `1`, `2`, then Percent.  `percentage` assigns
`str(12.0 / 100)` only to element 0 of the fragment list, so the fragment
becomes `["0.12", "2"]`, whose joined text `"0.122"` has numeric value
61/500 = 0.122, not 12/100 = 0.12.  (The spec's own `"50"` example survives
only numerically: the fragment becomes `["0.5", "0"]`, text `"0.50"`.) -/
theorem C8_percentage_mangles_fragment :
    numberPressed "2" (numberPressed "1" initState)
      = ⟨"12", "", ["1", "2"], [], [], true, false, false⟩ ∧
    percentage ⟨"12", "", ["1", "2"], [], [], true, false, false⟩
      = .ok ⟨"0.122", "", ["0.12", "2"], [], [], true, false, false⟩ ∧
    pyFloat "0.122" = .ok (PRat.norm 61 500) ∧
    PRat.norm 61 500 ≠ PRat.div (PRat.norm 12 1) (PRat.ofInt 100) ∧
    percentage ⟨"50", "", ["5", "0"], [], [], true, false, false⟩
      = .ok ⟨"0.50", "", ["0.5", "0"], [], [], true, false, false⟩ ∧
    pyFloat "0.50" = .ok (PRat.norm 1 2) :=
  ⟨by decide, by decide, by decide, by decide, by decide, by decide⟩

/-- Claim C9 counterexample: typing `9` then Logarithm(base 10) displays
`"0.95424251"` — the formatter grants `9 - len("0") = 8` fractional digits —
not `"0.954242509"`. -/
theorem C9_counterexample :
    logarithms (some 10) (fun _ => log10of9) (fun _ => PRat.ofInt 0)
        (numberPressed "9" initState)
      = ⟨"0.95424251", "", ["0.95424251"], [], [], true, false, false⟩ ∧
    "0.95424251" ≠ "0.954242509" :=
  ⟨by decide, by decide⟩

/-- Claim C9, amended: a float with no fractional part is rendered as an
integer; otherwise, when the rendered decimal exceeds the 9-character budget
and the integer part (sign included) is at most 9 characters, the value is
re-rendered with `9 - (length of the integer part)` fractional digits (there
is no clamping: a longer integer part makes the precision negative, which
raises an uncaught formatting error); typing `9` then Logarithm(base 10)
displays `"0.95424251"`. -/
theorem C9_amended :
    (∀ q : PRat, q.den ≠ 1 → 9 < (pyFloatStr q).length →
      (toString q.trunc).length ≤ 9 →
      roundToMaxDigits (.float q)
        = .ok (.str (formatFixed q (9 - (toString q.trunc).length)))) ∧
    (∀ q : PRat, q.den = 1 → roundToMaxDigits (.float q) = .ok (.num (.int q.num))) ∧
    logarithms (some 10) (fun _ => log10of9) (fun _ => PRat.ofInt 0)
        (numberPressed "9" initState)
      = ⟨"0.95424251", "", ["0.95424251"], [], [], true, false, false⟩ := by
  refine ⟨?_, ?_, by decide⟩
  · intro q h1 h2 h3
    have e : ((9 : Int) - ((toString q.trunc).length : Int)).toNat
        = 9 - (toString q.trunc).length := by omega
    simp only [roundToMaxDigits, if_neg h1, if_pos h2]
    rw [if_neg (by omega : ¬ ((9 : Int) - ((toString q.trunc).length : Int) < 0)), e]
  · intro q h
    simp [roundToMaxDigits, h]

theorem C9_amended_witness :
    roundToMaxDigits (.float log10of9) = .ok (.str "0.95424251") := by
  have h := C9_amended.1 log10of9 (by decide) (by decide) (by decide)
  exact h.trans (by decide)

/-- Claim C10: with an empty CurrentNumberInput, each of the unary
operations `percentage`, `invert`, `exponentiate`, `square` and `logarithms`
returns the state completely unchanged (and raises nothing). -/
theorem C10_unary_noop_on_empty (s : CalcState) (h : s.numInputList = []) :
    percentage s = .ok s ∧ invert s = s ∧ exponentiate s = s ∧
    square s = .ok s ∧
    ∀ (base : Option Nat) (f g : PRat → PRat), logarithms base f g s = s := by
  refine ⟨?_, ?_, ?_, ?_, ?_⟩
  · simp [percentage, h]
  · simp [invert, h, joinL_nil]
  · simp [exponentiate, h]
  · simp [square, h]
  · intro base f g
    simp [logarithms, h]

theorem C10_witness :
    percentage initState = .ok initState ∧ invert initState = initState ∧
    exponentiate initState = initState ∧ square initState = .ok initState ∧
    logarithms (some 10) (fun q => q) (fun q => q) initState = initState := by
  obtain ⟨h1, h2, h3, h4, h5⟩ := C10_unary_noop_on_empty initState rfl
  exact ⟨h1, h2, h3, h4, h5 (some 10) (fun q => q) (fun q => q)⟩
